import Mathlib

/-!
Verification development for the 1acremessage repository.

The repository ingests Instagram conversation exports
(`message_processor.py`) into per-conversation records and serves
multi-term boolean search with filters and sorting over the loaded
corpus (`components/search.py`, `utils/data_loader.py`).

This file gives a shallow embedding of those two layers and proves the
spec claims about them.  Conventions of the embedding:

* Timestamps are modelled as epoch milliseconds (`Int`).  The source
  converts `timestamp_ms / 1000` to a `datetime` with microsecond
  precision; for any timestamp whose magnitude is realistic the float
  division round-trips exactly through the microsecond rounding, so
  the order and day-differences of the `datetime` values coincide with
  those of the raw millisecond integers.
* Python dictionaries read with `.get` are modelled as structures with
  `Option` fields (`none` = key absent).
* String predicates (`lower`, `\w`, whitespace) are modelled over the
  character classes Lean provides; the repository data is ASCII and no
  claim distinguishes the Unicode edge of Python's classes.
* `pandas` frames are modelled as `List (Nat × row)`: the `Nat` is the
  frame's index label (unique in every frame the repository builds),
  the row holds the column values.  Non-inplace pandas operations are
  pure functions on such lists.
-/

/-! ## Generic list/string helpers (executable, kernel-reducible) -/

/-- Python's `str.lower()` (character-wise, kernel-reducible). -/
def strLower (s : String) : String := String.mk (s.toList.map Char.toLower)

/-- Python's `str.strip()`: drop whitespace from both ends
(kernel-reducible, unlike `String.trim`). -/
def strTrim (s : String) : String :=
  String.mk (((s.toList.dropWhile Char.isWhitespace).reverse.dropWhile
    Char.isWhitespace).reverse)

/-- Tokenizer behind Python's `str.split()`: maximal non-whitespace
runs, in order; `acc` holds the current run reversed. -/
def wsTokensAux (acc : List Char) : List Char → List String
  | [] => if acc.isEmpty then [] else [String.mk acc.reverse]
  | c :: cs =>
    if c.isWhitespace then
      if acc.isEmpty then wsTokensAux [] cs
      else String.mk acc.reverse :: wsTokensAux [] cs
    else wsTokensAux (c :: acc) cs

/-- Does the list start with the given pattern?  (Used for substring search.) -/
def listStartsWith : List Char → List Char → Bool
  | _, [] => true
  | [], _ :: _ => false
  | a :: as, b :: bs => a == b && listStartsWith as bs

/-- Does `needle` occur as a contiguous sublist of `hay`?
Models Python's `in` on strings / `str.contains(regex pattern with no
metacharacters)`. -/
def listContainsSub (hay needle : List Char) : Bool :=
  match hay with
  | [] => needle.isEmpty
  | _ :: hs => listStartsWith hay needle || listContainsSub hs needle

/-- `needle` occurs as a substring of `hay` (case-sensitive). -/
def strContainsSub (hay needle : String) : Bool :=
  listContainsSub hay.toList needle.toList

/-- Case-insensitive substring test: models
`Series.str.contains(term, case=False)` for a pattern without regex
metacharacters, and Python's `x in s.lower()` idiom. -/
def strContainsCI (hay needle : String) : Bool :=
  strContainsSub (strLower hay) (strLower needle)

/-- Python's `\w` on the repository's ASCII data: letters, digits, underscore. -/
def isWordChar (c : Char) : Bool := c.isAlphanum || c == '_'

/-- A minimum fold: models Python's `min(...)` over a non-empty iterator,
seeded with a first element. -/
def listMin (a : Int) : List Int → Int
  | [] => a
  | b :: bs => listMin (min a b) bs

/-- A maximum fold: models Python's `max(...)` over a non-empty iterator. -/
def listMax (a : Int) : List Int → Int
  | [] => a
  | b :: bs => listMax (max a b) bs

/-- Insert into a sorted list, before the first element that is not
`le`-below the inserted one.  Keeps earlier elements first on ties. -/
def insertSorted (le : α → α → Bool) (a : α) : List α → List α
  | [] => [a]
  | b :: bs => if le a b then a :: b :: bs else b :: insertSorted le a bs

/-- Stable insertion sort.  Models Python's stable `sorted` exactly.  It
also stands in for `pandas.sort_values`: there it fixes one definite
order for tied rows (the source uses the default `kind='quicksort'`,
whose tie order is an artifact of numpy's introsort, so no theorem in
this file relies on the relative order of tied rows). -/
def stableSort (le : α → α → Bool) : List α → List α
  | [] => []
  | a :: as => insertSorted le a (stableSort le as)

/-! ## MD5 (`hashlib.md5(text.encode()).hexdigest()`)

`MessageProcessor.generate_unique_id` derives the 8-character profile
ids from MD5; the digest is embedded bit-faithfully over `Nat` with
explicit `% 2^32`. -/

/-- UTF-8 encoding of one character, as byte values.  Models Python's
`str.encode()`. -/
def utf8Bytes (c : Char) : List Nat :=
  let n := c.toNat
  if n < 0x80 then [n]
  else if n < 0x800 then [0xC0 + n / 0x40, 0x80 + n % 0x40]
  else if n < 0x10000 then
    [0xE0 + n / 0x1000, 0x80 + n / 0x40 % 0x40, 0x80 + n % 0x40]
  else
    [0xF0 + n / 0x40000, 0x80 + n / 0x1000 % 0x40, 0x80 + n / 0x40 % 0x40,
      0x80 + n % 0x40]

/-- The UTF-8 bytes of a string. -/
def strBytes (s : String) : List Nat := (s.toList.map utf8Bytes).flatten

/-- 32-bit left rotation on a `Nat` below `2^32`. -/
def rotl32 (x n : Nat) : Nat := (x * 2 ^ n) % 2 ^ 32 + x % 2 ^ 32 / 2 ^ (32 - n)

/-- The 64 MD5 sine constants (RFC 1321 table T). -/
def md5K : List Nat :=
  [0xd76aa478, 0xe8c7b756, 0x242070db, 0xc1bdceee,
   0xf57c0faf, 0x4787c62a, 0xa8304613, 0xfd469501,
   0x698098d8, 0x8b44f7af, 0xffff5bb1, 0x895cd7be,
   0x6b901122, 0xfd987193, 0xa679438e, 0x49b40821,
   0xf61e2562, 0xc040b340, 0x265e5a51, 0xe9b6c7aa,
   0xd62f105d, 0x02441453, 0xd8a1e681, 0xe7d3fbc8,
   0x21e1cde6, 0xc33707d6, 0xf4d50d87, 0x455a14ed,
   0xa9e3e905, 0xfcefa3f8, 0x676f02d9, 0x8d2a4c8a,
   0xfffa3942, 0x8771f681, 0x6d9d6122, 0xfde5380c,
   0xa4beea44, 0x4bdecfa9, 0xf6bb4b60, 0xbebfbc70,
   0x289b7ec6, 0xeaa127fa, 0xd4ef3085, 0x04881d05,
   0xd9d4d039, 0xe6db99e5, 0x1fa27cf8, 0xc4ac5665,
   0xf4292244, 0x432aff97, 0xab9423a7, 0xfc93a039,
   0x655b59c3, 0x8f0ccc92, 0xffeff47d, 0x85845dd1,
   0x6fa87e4f, 0xfe2ce6e0, 0xa3014314, 0x4e0811a1,
   0xf7537e82, 0xbd3af235, 0x2ad7d2bb, 0xeb86d391]

/-- The per-round MD5 shift amounts. -/
def md5S : List Nat :=
  [7, 12, 17, 22, 7, 12, 17, 22, 7, 12, 17, 22, 7, 12, 17, 22,
   5, 9, 14, 20, 5, 9, 14, 20, 5, 9, 14, 20, 5, 9, 14, 20,
   4, 11, 16, 23, 4, 11, 16, 23, 4, 11, 16, 23, 4, 11, 16, 23,
   6, 10, 15, 21, 6, 10, 15, 21, 6, 10, 15, 21, 6, 10, 15, 21]

/-- The MD5 round function for step `i` (complement is `2^32 - 1 - x`). -/
def md5F (i b c d : Nat) : Nat :=
  if i < 16 then b &&& c ||| (0xFFFFFFFF - b) &&& d
  else if i < 32 then d &&& b ||| (0xFFFFFFFF - d) &&& c
  else if i < 48 then b ^^^ c ^^^ d
  else c ^^^ (b ||| 0xFFFFFFFF - d)

/-- The MD5 message-word schedule for step `i`. -/
def md5G (i : Nat) : Nat :=
  if i < 16 then i
  else if i < 32 then (5 * i + 1) % 16
  else if i < 48 then (3 * i + 5) % 16
  else 7 * i % 16

/-- One MD5 step on the register quadruple. -/
def md5Step (m : List Nat) (st : Nat × Nat × Nat × Nat) (i : Nat) :
    Nat × Nat × Nat × Nat :=
  let (a, b, c, d) := st
  let f := (md5F i b c d + a + md5K.getD i 0 + m.getD (md5G i) 0) % 2 ^ 32
  (d, (b + rotl32 f (md5S.getD i 0)) % 2 ^ 32, b, c)

/-- Decode a 64-byte block into sixteen little-endian 32-bit words. -/
def md5Words (block : List Nat) : List Nat :=
  (List.range 16).map fun j =>
    block.getD (4 * j) 0 + block.getD (4 * j + 1) 0 * 0x100 +
      block.getD (4 * j + 2) 0 * 0x10000 + block.getD (4 * j + 3) 0 * 0x1000000

/-- Process one 64-byte block. -/
def md5Block (st : Nat × Nat × Nat × Nat) (block : List Nat) :
    Nat × Nat × Nat × Nat :=
  let m := md5Words block
  let (a, b, c, d) := (List.range 64).foldl (md5Step m) st
  let (a0, b0, c0, d0) := st
  ((a0 + a) % 2 ^ 32, (b0 + b) % 2 ^ 32, (c0 + c) % 2 ^ 32, (d0 + d) % 2 ^ 32)

/-- MD5 padding: `0x80`, zeros to 56 mod 64, then the 64-bit
little-endian bit length. -/
def md5Pad (msg : List Nat) : List Nat :=
  let padZeros := (55 + 64 - msg.length % 64) % 64
  msg ++ 0x80 :: List.replicate padZeros 0 ++
    (List.range 8).map fun i => 8 * msg.length % 2 ^ 64 / 2 ^ (8 * i) % 0x100

/-- Split into 64-byte chunks (fuel-structural so the kernel can reduce it). -/
def chunks64Aux : Nat → List Nat → List (List Nat)
  | 0, _ => []
  | _ + 1, [] => []
  | fuel + 1, l@(_ :: _) => l.take 64 :: chunks64Aux fuel (l.drop 64)

/-- Split a byte list into 64-byte chunks. -/
def chunks64 (l : List Nat) : List (List Nat) := chunks64Aux l.length l

/-- The MD5 register quadruple of a byte message. -/
def md5Digest (msg : List Nat) : Nat × Nat × Nat × Nat :=
  (chunks64 (md5Pad msg)).foldl md5Block (0x67452301, 0xefcdab89, 0x98badcfe, 0x10325476)

/-- Lower-case hex digit. -/
def hexDigit (n : Nat) : Char := if n < 10 then Char.ofNat (48 + n) else Char.ofNat (87 + n)

/-- Two-digit hex of a byte. -/
def byteHex (b : Nat) : String := String.mk [hexDigit (b / 16 % 16), hexDigit (b % 16)]

/-- Hex of a 32-bit word printed as its four little-endian bytes. -/
def wordLEHex (w : Nat) : String :=
  byteHex (w % 0x100) ++ byteHex (w / 0x100 % 0x100) ++ byteHex (w / 0x10000 % 0x100) ++
    byteHex (w / 0x1000000 % 0x100)

/-- `hashlib.md5(s.encode()).hexdigest()`. -/
def md5Hex (s : String) : String :=
  let (a, b, c, d) := md5Digest (strBytes s)
  wordLEHex a ++ wordLEHex b ++ wordLEHex c ++ wordLEHex d

/-! ## Ingestion data model (`message_processor.py`) -/

/-- One millisecond-timestamped message surviving validation.
Mirrors the `Message` dataclass (`timestamp` kept in epoch ms). -/
structure Message where
  sender_name : String
  sender_id : Option String
  content : String
  timestamp : Int
  share_link : Option String
  deriving DecidableEq

/-- One element of the export's `messages` array as `json.load` hands it
to `Message.from_dict`: either not a JSON object, or an object whose
relevant keys may be absent.  The `share` field is `none` when the
`share` key is absent and `some link?` when it is present, `link?`
being the truthy value of its `link` entry (`none` for an empty dict,
a `null`, or a missing/empty link — all of which the source treats
alike at every reachable use). -/
inductive MsgEntry
  | notDict
  | entry (timestamp_ms : Option Int) (content : Option String)
      (sender_name : Option String) (share : Option (Option String))
  deriving DecidableEq

/-- The fixed system-notice blocklist of `Message.from_dict`. -/
def skipTexts : List String :=
  ["quiet mode", "notification", "missed voice call", "missed video call",
   "started a video call", "started a voice call"]

/-- `any(skip_text in content.lower() for skip_text in [...])`. -/
def isSystemMessage (content : String) : Bool :=
  skipTexts.any fun s => strContainsSub (strLower content) s

/-- `Message.from_dict(data, participants_map)`.

Control flow of the source, in order: reject non-dicts; reject a falsy
`timestamp_ms` (absent or `0`); take `content = data.get('content','').strip()`
and, when empty, synthesize `"Shared link: <url>"` from a truthy
`share['link']` or reject; reject blocklisted system notices; normalize
a sender name containing `"acre"` to `"1acre"`; finally build the
dataclass.  The final `share_link=share.get('link') if 'share' in data
else None` references the local `share`, which is only assigned on the
empty-content path — so a message with non-empty content and a present
`share` key raises `UnboundLocalError`, which the enclosing handler
turns into `None`: that message is dropped. -/
def Message.fromDict (participantsMap : String → Option String) :
    MsgEntry → Option Message
  | .notDict => none
  | .entry tsOpt contentOpt senderOpt shareOpt =>
    match tsOpt with
    | none => none
    | some ts =>
      if ts == 0 then none
      else
        let rawContent := strTrim (contentOpt.getD "")
        let contentRes : Option String :=
          if rawContent == "" then
            match shareOpt with
            | some (some l) => if l == "" then none else some ("Shared link: " ++ l)
            | _ => none
          else some rawContent
        match contentRes with
        | none => none
        | some content =>
          if isSystemMessage content then none
          else if rawContent != "" && !(shareOpt == none) then
            none
          else
            let sender0 := senderOpt.getD "Unknown"
            let senderId := participantsMap sender0
            let senderName := if strContainsSub (strLower sender0) "acre" then "1acre" else sender0
            let shareLink : Option String :=
              match shareOpt with
              | some (some l) => some l
              | _ => none
            some ⟨senderName, senderId, content, ts, shareLink⟩

/-- A canonical conversation record: the dict returned by
`MessageProcessor.process_json_file`, one spreadsheet row. -/
structure ConversationRecord where
  firstContact : Int
  lastContact : Int
  profileName : String
  profileId : String
  threadPath : String
  conversation : String
  messageCount : Nat
  durationDays : Int
  participantCount : Nat
  deriving DecidableEq

/-- `MessageProcessor.generate_unique_id`. -/
def generate_unique_id (text : String) : String := String.mk ((md5Hex text).toList.take 8)

/-- One element of the `participants` array: `none` when the element is
not a dict, otherwise its optional `name` field. -/
abbrev PartEntry := Option (Option String)

/-- A JSON export unit as `process_json_file` sees it: unreadable or
malformed JSON (`json.load` raised), a non-object document, or an
object with its optional fields. -/
inductive FileData
  | corrupt
  | notDict
  | obj (messages : List MsgEntry) (participants : List PartEntry)
      (title : Option String) (thread_path : Option String)
  deriving DecidableEq

/-- The participant names entered into `participants_map`
(`participant.get('name', 'Unknown')` for each dict element). -/
def participantNames (participants : List PartEntry) : List String :=
  participants.filterMap fun p => p.map fun nm => nm.getD "Unknown"

/-- `participants_map.get(name)`: the md5-derived id for a mapped name. -/
def participantsMapOf (participants : List PartEntry) : String → Option String :=
  fun n => if participantNames participants |>.contains n
    then some (generate_unique_id n) else none

/-- Python `f"{sender_id}"`: `None` prints as the string `"None"`. -/
def pyStrOfOpt (o : Option String) : String := o.getD "None"

/-- One formatted conversation line; `showSender` is true when the
sender differs from the previous message's sender. -/
def renderLine (m : Message) (showSender : Bool) : String :=
  let senderText :=
    if showSender then "[" ++ m.sender_name ++ " (ID: " ++ pyStrOfOpt m.sender_id ++ ")]"
    else "    "
  let base := senderText ++ ": " ++ m.content
  match m.share_link with
  | some l => if l == "" then base else base ++ " (Link: " ++ l ++ ")"
  | none => base

/-- The formatting loop over timestamp-sorted messages, threading the
previous sender. -/
def buildLines : Option String → List Message → List String
  | _, [] => []
  | prev, m :: rest =>
    renderLine m (prev != some m.sender_name) :: buildLines (some m.sender_name) rest

/-- Milliseconds per day. -/
def msPerDay : Int := 86400000

/-- `MessageProcessor.process_json_file`, from `json.load`'s result to
the returned conversation dict (`None` on any rejection).  Python's
`(last - first).days` is floor division of the (nonnegative) difference
by one day, hence `Int.fdiv`. -/
def process_json_file : FileData → Option ConversationRecord
  | .corrupt => none
  | .notDict => none
  | .obj messages participants title thread_path =>
    if messages.isEmpty then none
    else
      let pmap := participantsMapOf participants
      let valid := messages.filterMap (Message.fromDict pmap)
      match valid with
      | [] => none
      | m :: ms =>
        let sortedMsgs := stableSort (fun a b => decide (a.timestamp ≤ b.timestamp)) (m :: ms)
        let conversationText := String.intercalate "\n" (buildLines none sortedMsgs)
        let firstContact := listMin m.timestamp (ms.map Message.timestamp)
        let lastContact := listMax m.timestamp (ms.map Message.timestamp)
        let profileName := title.getD "Unknown User"
        some
          { firstContact := firstContact
            lastContact := lastContact
            profileName := profileName
            profileId := generate_unique_id profileName
            threadPath := thread_path.getD ""
            conversation := conversationText
            messageCount := (m :: ms).length
            durationDays := (lastContact - firstContact).fdiv msPerDay + 1
            participantCount := (participantNames participants).dedup.length }

/-- The output of `os.walk(folder_path)`, restricted to what the source
reads: for each visited directory, its path (as components) and the
names of the plain files in it. -/
abbrev WalkEntry := List String × List String

/-- `MessageProcessor.find_json_files`: collect `os.path.join(root, f)`
for every listed file literally named `message_1.json`. -/
def find_json_files (walk : List WalkEntry) : List (List String) :=
  (walk.map fun e =>
    (e.2.filter fun f => f == "message_1.json").map fun f => e.1 ++ [f]).flatten

/-- The per-file loop of `process_folder`: parse each discovered unit,
keep the successes in order. -/
def processFiles (l : List FileData) : List ConversationRecord :=
  l.filterMap process_json_file

/-- `MessageProcessor.process_folder`, with the filesystem supplied as
the `os.walk` listing plus a map from file path to its parsed content.
Returns the frame's rows; the final `sort_values('First Contact Date
and Time', ascending=False, inplace=True)` is the descending sort. -/
def process_folder (walk : List WalkEntry) (contents : List String → FileData) :
    List ConversationRecord :=
  let files := find_json_files walk
  if files.isEmpty then []
  else
    let allData := processFiles (files.map contents)
    if allData.isEmpty then []
    else stableSort (fun a b => decide (b.firstContact ≤ a.firstContact)) allData

/-! ## Corpus loading and search (`utils/data_loader.py`, `components/search.py`) -/

/-- `ConversationSearch.preprocess_text` and the `processed_conversation`
column of `DataLoader.load_data`: lower-case, then delete every
character matching `[^\w\s]`. -/
def preprocess_text (s : String) : String :=
  String.mk ((strLower s).toList.filter fun c => isWordChar c || c.isWhitespace)

/-- Python `str.split()`: split on whitespace runs, dropping empties. -/
def pySplitWs (s : String) : List String := wsTokensAux [] s.toList

/-- `[term.strip() for term in query.split() if term.strip()]`. -/
def searchTermsOf (q : String) : List String :=
  (pySplitWs q).filterMap fun t => if strTrim t != "" then some (strTrim t) else none

/-- Does the pattern begin here, flanked by word boundaries?  `prev` is
the character before the current position (`none` at the start). -/
def wwAux (t : List Char) : Option Char → List Char → Bool
  | _, [] => false
  | prev, c :: rest =>
    ((match prev with | none => true | some p => !isWordChar p) &&
      listStartsWith (c :: rest) t &&
      (match (c :: rest).drop t.length with | [] => true | c2 :: _ => !isWordChar c2))
    || wwAux t (some c) rest

/-- `re.search` of `r'\b' + re.escape(t) + r'\b'` in `hay`, for a
pattern `t` made of word characters (every preprocessed search term
is).  An empty `t` leaves the bare pattern `\b\b`, which matches
exactly when the text has a word boundary at all, i.e. some word
character. -/
def containsWholeWord (hay t : String) : Bool :=
  if t.toList.isEmpty then hay.toList.any isWordChar
  else wwAux t.toList none hay.toList

/-- One row of the loaded search frame: a stored conversation record
together with its derived `processed_conversation` column. -/
structure LoadedRow where
  record : ConversationRecord
  processedConversation : String
  deriving DecidableEq

/-- The column derivation of `DataLoader.load_data` (the loaded rows are
the stored records; the frame also gets re-sorted by first contact
descending, which no claim depends on). -/
def loadRow (r : ConversationRecord) : LoadedRow :=
  ⟨r, preprocess_text r.conversation⟩

/-- An indexed frame: pandas index label paired with the row. -/
abbrev Frame := List (Nat × LoadedRow)

/-- The body of `_search_term`'s mask for one (already preprocessed)
term against one row: whole-word regex on `processed_conversation`, or
case-insensitive containment in profile name or profile id (pandas
`str.contains` with `case=False`; the preprocessed term has no regex
metacharacters). -/
def termMask (t : String) (r : LoadedRow) : Bool :=
  containsWholeWord r.processedConversation t ||
    strContainsCI r.record.profileName t || strContainsCI r.record.profileId t

/-- `ConversationSearch._search_term`: preprocess the term, keep the
masked rows. -/
def search_term (df : Frame) (term : String) : Frame :=
  let t := preprocess_text term
  df.filter fun p => termMask t p.2

/-- `.dt.date` on an epoch-millisecond timestamp: days since epoch. -/
def dateOfMs (ms : Int) : Int := ms.fdiv msPerDay

/-- Steps 1–2 of `search`: the date-range filter on the first-contact
date (inclusive both ends, applied only when both bounds are present)
followed by the `Message Count >= min_messages` filter. -/
def candidateSet (df : Frame) (dateRange : Option (Int × Int)) (minMessages : Int) :
    Frame :=
  let f1 : Frame := match dateRange with
    | some (startDate, endDate) =>
      df.filter fun p =>
        decide (startDate ≤ dateOfMs p.2.record.firstContact) &&
          decide (dateOfMs p.2.record.firstContact ≤ endDate)
    | none => df
  f1.filter fun p => decide (minMessages ≤ (p.2.record.messageCount : Int))

/-- `drop_duplicates()`: keep the first row of every duplicated value
row (the index label is not part of the compared values). -/
def dropDuplicates (seen : List LoadedRow) : Frame → Frame
  | [] => []
  | p :: rest =>
    if p.2 ∈ seen then dropDuplicates seen rest
    else p :: dropDuplicates (p.2 :: seen) rest

/-- The `sort_options` dict of `sort_conversations`: sort column and
ascending flag per criterion, as an `Int`-valued key. -/
def sortOptionsLookup (sortBy : String) : Option ((LoadedRow → Int) × Bool) :=
  if sortBy == "Recent" then some (fun r => r.record.lastContact, false)
  else if sortBy == "Oldest" then some (fun r => r.record.firstContact, true)
  else if sortBy == "Most Messages" then some (fun r => (r.record.messageCount : Int), false)
  else if sortBy == "Longest Duration" then some (fun r => r.record.durationDays, false)
  else none

/-- `ConversationSearch.sort_conversations`: `df.sort_values(column,
ascending=ascending)` for a known criterion, the frame unchanged
otherwise.  See `stableSort` on the tie order of `sort_values`. -/
def sort_conversations (df : Frame) (sortBy : String) : Frame :=
  match sortOptionsLookup sortBy with
  | some (key, asc) =>
    stableSort
      (fun p q => if asc then decide (key p.2 ≤ key q.2) else decide (key q.2 ≤ key p.2)) df
  | none => df

/-- The term-matching block of `ConversationSearch.search`: run
`_search_term` per term over the already-filtered frame, `concat` the
per-term frames, keep the index groups of size `len(search_terms)`
(`groupby(level=0).filter` preserves the concatenated order), and
`drop_duplicates`. -/
def termStage (filtered : Frame) (terms : List String) : Frame :=
  let results := terms.map fun t => search_term filtered t
  let matched := results.flatten
  let grouped := matched.filter fun p =>
    matched.countP (fun q2 => q2.1 == p.1) == terms.length
  dropDuplicates [] grouped

/-- `ConversationSearch.search` on the engine's frame: date and
message-count filters; the term stage, run only when the query string
and its split term list are both truthy; then `sort_conversations` and
`head(max_results)`. -/
def searchFrame (df : Frame) (query : Option String) (dateRange : Option (Int × Int))
    (minMessages : Int) (sortBy : String) (maxResults : Nat) : Frame :=
  let filtered := candidateSet df dateRange minMessages
  let filtered :=
    match query with
    | some q =>
      if q == "" then filtered
      else
        let terms := searchTermsOf q
        if terms.isEmpty then filtered
        else termStage filtered terms
    | none => filtered
  (sort_conversations filtered sortBy).take maxResults

/-- The search engine object: `__init__` stores (a copy of) the loaded
frame in `self.df`. -/
structure ConversationSearch where
  df : Frame
  deriving DecidableEq

/-- `ConversationSearch.search` as a state transformer on the engine:
the source copies `self.df` into `filtered_df` and every frame
operation it applies (`[]`-filtering, `concat`, `groupby(...).filter`,
`drop_duplicates`, non-inplace `sort_values`, `head`) returns a new
frame, so the engine state is returned unchanged next to the result. -/
def ConversationSearch.searchRun (engine : ConversationSearch) (query : Option String)
    (dateRange : Option (Int × Int)) (minMessages : Int) (sortBy : String)
    (maxResults : Nat) : ConversationSearch × Frame :=
  (engine, searchFrame engine.df query dateRange minMessages sortBy maxResults)

/-- Modelled from the spec: the per-term match condition exactly as the
spec sentence states it, applied to the raw term — "every term matches
as a whole-word, case-insensitive substring of `normalizedText`, OR
the term case-insensitively substring-matches `profileName`, OR it
substring-matches `profileId`".  (The source instead preprocesses the
term first; the two definitions are compared in the C1 theorems.) -/
def termMatchesSpec (t : String) (r : LoadedRow) : Bool :=
  (if t.toList.isEmpty then (strLower r.processedConversation).toList.any isWordChar
    else wwAux (strLower t).toList none (strLower r.processedConversation).toList) ||
    strContainsCI r.record.profileName t || strContainsSub r.record.profileId t

/-- The per-term match condition the code implements: `_search_term`'s
mask applied to the preprocessed (lower-cased, `[^\w\s]`-stripped)
term. -/
def termMatchesCode (t : String) (r : LoadedRow) : Bool :=
  termMask (preprocess_text t) r

/-- Modelled from the spec: the claim's characterization of a message
entry "that survived validation (valid timestamp, non-empty content,
not blocklisted)", read directly off those words.  Compared with
`Message.fromDict` in the C4 theorem. -/
def survivesSpecValidation : MsgEntry → Bool
  | .notDict => false
  | .entry ts c _ _ =>
    (match ts with | some t => t != 0 | none => false) &&
      strTrim (c.getD "") != "" && !isSystemMessage (strTrim (c.getD ""))

/-- The result frame is ordered by the selected criterion: for a known
criterion, consecutive rows are non-increasing (or non-decreasing for
an ascending criterion) in the sort key; vacuous for an unrecognized
criterion, where the source returns the frame unchanged. -/
def sortedByCriterion (df : Frame) (sortBy : String) : Prop :=
  match sortOptionsLookup sortBy with
  | some (key, asc) =>
    df.Pairwise fun p q => if asc then key p.2 ≤ key q.2 else key q.2 ≤ key p.2
  | none => True

/-! ## Concrete fixtures for counterexamples and witnesses -/

/-- A loaded row whose profile id contains `abc` but which matches no
raw search term containing punctuation. -/
def rowCex : LoadedRow :=
  ⟨⟨0, 0, "qq", "abcd1234", "", "zzz!", 3, 1, 2⟩, "zzz"⟩

/-- A row whose normalized conversation contains the word `land`. -/
def rowLand : LoadedRow :=
  ⟨⟨5, 9, "pn", "ffff0000", "", "the green land is here!", 2, 1, 1⟩,
    "the green land is here"⟩

/-- A row matching neither `land` nor `zzz` as a whole word. -/
def rowOther : LoadedRow :=
  ⟨⟨3, 4, "other name", "0123beef", "", "landing page only", 5, 1, 1⟩,
    "landing page only"⟩

/-- A message entry with a valid timestamp, non-empty content, no
blocklisted text — and a present `share` key. -/
def entryShareContent : MsgEntry :=
  .entry (some 1700000000000) (some "hello") (some "Bob") (some (some "http://x"))

/-- Two messages, both surviving the validation the spec describes:
`entryShareContent` and a plain one. -/
def msgsShare : List MsgEntry :=
  [entryShareContent, .entry (some 1700000000001) (some "hi") (some "Bob") none]

/-- A JSON unit holding the `msgsShare` messages. -/
def fileShare : FileData := .obj msgsShare [] (some "Lead A") none

/-- A plain valid JSON unit with a single message. -/
def fileB : FileData :=
  .obj [.entry (some 1000) (some "hello") (some "Alice") none] [] (some "T1") none

/-- A second plain valid JSON unit. -/
def fileC : FileData :=
  .obj [.entry (some 2000) (some "there") (some "Cara") none] [] (some "T2") none

/-- An `os.walk` listing with three directories, each holding one
`message_1.json`. -/
def walkThree : List WalkEntry :=
  [(["inbox", "a"], ["message_1.json"]),
   (["inbox", "b"], ["message_1.json"]),
   (["inbox", "c"], ["message_1.json"])]

/-- File contents for `walkThree`: one corrupt unit, two valid ones. -/
def contentsThree : List String → FileData := fun p =>
  if p = ["inbox", "a", "message_1.json"] then FileData.corrupt
  else if p = ["inbox", "b", "message_1.json"] then fileB
  else fileC

/-- An `os.walk` listing that also contains a `message_2.json`. -/
def walkMixed : List WalkEntry :=
  [(["inbox", "d"], ["message_1.json", "message_2.json"])]

/-- Contents that make the `message_2.json` file corrupt. -/
def contentsMixedA : List String → FileData := fun p =>
  if p = ["inbox", "d", "message_2.json"] then FileData.corrupt else fileB

/-- Contents that make every file a plain valid unit. -/
def contentsMixedB : List String → FileData := fun _ => fileB

/-- The record `process_json_file` produces for `fileB`. -/
def recB : ConversationRecord :=
  ⟨1000, 1000, "T1", "ce499dea", "", "[Alice (ID: None)]: hello", 1, 1, 0⟩

/-! ## Helper lemmas about the embedded operations -/

theorem mem_insertSorted (le : α → α → Bool) (a x : α) (l : List α) :
    x ∈ insertSorted le a l ↔ x = a ∨ x ∈ l := by
  induction l with
  | nil => simp [insertSorted]
  | cons b bs ih =>
    simp only [insertSorted]
    by_cases h : le a b = true
    · simp [h, List.mem_cons]
    · simp only [h, if_false, Bool.false_eq_true, if_neg, List.mem_cons, ih]
      tauto

theorem perm_insertSorted (le : α → α → Bool) (a : α) (l : List α) :
    (insertSorted le a l).Perm (a :: l) := by
  induction l with
  | nil => exact List.Perm.refl _
  | cons b bs ih =>
    simp only [insertSorted]
    by_cases h : le a b = true
    · simp [h]
    · simp only [h, Bool.false_eq_true, if_neg, if_false]
      exact (ih.cons b).trans (List.Perm.swap a b bs)

theorem perm_stableSort (le : α → α → Bool) (l : List α) :
    (stableSort le l).Perm l := by
  induction l with
  | nil => exact List.Perm.refl _
  | cons a as ih => exact (perm_insertSorted le a _).trans (ih.cons a)

theorem mem_stableSort (le : α → α → Bool) (l : List α) (x : α) :
    x ∈ stableSort le l ↔ x ∈ l :=
  (perm_stableSort le l).mem_iff

theorem length_stableSort (le : α → α → Bool) (l : List α) :
    (stableSort le l).length = l.length :=
  (perm_stableSort le l).length_eq

theorem pairwise_insertSorted (le : α → α → Bool)
    (htot : ∀ a b, le a b = true ∨ le b a = true)
    (htrans : ∀ a b c, le a b = true → le b c = true → le a c = true)
    (a : α) (l : List α) (h : l.Pairwise fun x y => le x y = true) :
    (insertSorted le a l).Pairwise fun x y => le x y = true := by
  induction l with
  | nil => simp [insertSorted]
  | cons b bs ih =>
    rcases List.pairwise_cons.mp h with ⟨hb, hbs⟩
    simp only [insertSorted]
    by_cases hab : le a b = true
    · rw [if_pos hab]
      refine List.pairwise_cons.mpr ⟨?_, h⟩
      intro y hy
      rcases List.mem_cons.mp hy with rfl | hy
      · exact hab
      · exact htrans a b y hab (hb y hy)
    · simp only [hab, Bool.false_eq_true, if_neg, if_false]
      refine List.pairwise_cons.mpr ⟨?_, ih hbs⟩
      intro y hy
      rcases (mem_insertSorted le a y bs).mp hy with h2 | hy
      · rw [h2]
        rcases htot a b with h1 | h1
        · exact absurd h1 hab
        · exact h1
      · exact hb y hy

theorem pairwise_stableSort (le : α → α → Bool)
    (htot : ∀ a b, le a b = true ∨ le b a = true)
    (htrans : ∀ a b c, le a b = true → le b c = true → le a c = true)
    (l : List α) :
    (stableSort le l).Pairwise fun x y => le x y = true := by
  induction l with
  | nil => simp [stableSort]
  | cons a as ih => exact pairwise_insertSorted le htot htrans a _ ih

theorem mem_of_mem_dropDuplicates {seen : List LoadedRow} {l : Frame}
    {x : Nat × LoadedRow} (h : x ∈ dropDuplicates seen l) : x ∈ l := by
  induction l generalizing seen with
  | nil => simp [dropDuplicates] at h
  | cons p rest ih =>
    simp only [dropDuplicates] at h
    by_cases hp : p.2 ∈ seen
    · rw [if_pos hp] at h
      exact List.mem_cons_of_mem _ (ih h)
    · rw [if_neg hp] at h
      rcases List.mem_cons.mp h with rfl | h
      · exact List.mem_cons_self _ _
      · exact List.mem_cons_of_mem _ (ih h)

theorem not_seen_of_mem_dropDuplicates {seen : List LoadedRow} {l : Frame}
    {x : Nat × LoadedRow} (h : x ∈ dropDuplicates seen l) : x.2 ∉ seen := by
  induction l generalizing seen with
  | nil => simp [dropDuplicates] at h
  | cons p rest ih =>
    simp only [dropDuplicates] at h
    by_cases hp : p.2 ∈ seen
    · rw [if_pos hp] at h
      exact ih h
    · rw [if_neg hp] at h
      rcases List.mem_cons.mp h with rfl | h
      · exact hp
      · intro hx
        exact ih h (List.mem_cons_of_mem _ hx)

theorem mem_dropDuplicates_of_inj {l : Frame}
    (hinj : ∀ p ∈ l, ∀ q ∈ l, p.2 = q.2 → p = q) (seen : List LoadedRow)
    (x : Nat × LoadedRow) :
    x ∈ dropDuplicates seen l ↔ x ∈ l ∧ x.2 ∉ seen := by
  induction l generalizing seen with
  | nil => simp [dropDuplicates]
  | cons p rest ih =>
    have hinj' : ∀ a ∈ rest, ∀ b ∈ rest, a.2 = b.2 → a = b := fun a ha b hb =>
      hinj a (List.mem_cons_of_mem _ ha) b (List.mem_cons_of_mem _ hb)
    simp only [dropDuplicates]
    by_cases hp : p.2 ∈ seen
    · rw [if_pos hp, ih hinj']
      constructor
      · rintro ⟨hx, hxs⟩
        exact ⟨List.mem_cons_of_mem _ hx, hxs⟩
      · rintro ⟨hx, hxs⟩
        rcases List.mem_cons.mp hx with rfl | hx
        · exact absurd hp hxs
        · exact ⟨hx, hxs⟩
    · rw [if_neg hp]
      constructor
      · intro hx
        rcases List.mem_cons.mp hx with rfl | hx
        · exact ⟨List.mem_cons_self _ _, hp⟩
        · rcases (ih hinj' _).mp hx with ⟨h1, h2⟩
          have h3 : x.2 ∉ seen := fun hc => h2 (List.mem_cons_of_mem _ hc)
          exact ⟨List.mem_cons_of_mem _ h1, h3⟩
      · rintro ⟨hx, hxs⟩
        rcases List.mem_cons.mp hx with rfl | hx
        · exact List.mem_cons_self _ _
        · by_cases hval : x.2 = p.2
          · have : x = p := hinj x (List.mem_cons_of_mem _ hx) p (List.mem_cons_self _ _) hval
            subst this
            exact List.mem_cons_self _ _
          · refine List.mem_cons_of_mem _ ((ih hinj' _).mpr ⟨hx, ?_⟩)
            intro hc
            rcases List.mem_cons.mp hc with h | h
            · exact hval h
            · exact hxs h

theorem nodup_values_dropDuplicates (l : Frame) (seen : List LoadedRow) :
    ((dropDuplicates seen l).map Prod.snd).Nodup := by
  induction l generalizing seen with
  | nil => simp [dropDuplicates]
  | cons p rest ih =>
    simp only [dropDuplicates]
    by_cases hp : p.2 ∈ seen
    · rw [if_pos hp]; exact ih seen
    · rw [if_neg hp]
      simp only [List.map_cons, List.nodup_cons]
      refine ⟨?_, ih _⟩
      intro hc
      rcases List.mem_map.mp hc with ⟨q, hq, hq2⟩
      exact not_seen_of_mem_dropDuplicates hq (hq2 ▸ List.mem_cons_self _ _)

theorem eq_of_nodup_map {f : α → β} {l : List α} (h : (l.map f).Nodup)
    {a b : α} (ha : a ∈ l) (hb : b ∈ l) (hf : f a = f b) : a = b := by
  induction l with
  | nil => cases ha
  | cons x xs ih =>
    simp only [List.map_cons, List.nodup_cons] at h
    rcases List.mem_cons.mp ha with rfl | ha'
    · rcases List.mem_cons.mp hb with rfl | hb'
      · rfl
      · exact absurd (hf ▸ List.mem_map_of_mem f hb') h.1
    · rcases List.mem_cons.mp hb with rfl | hb'
      · exact absurd (hf ▸ List.mem_map_of_mem f ha') h.1
      · exact ih h.2 ha' hb'

theorem sum_map_ite_eq_countP (p : α → Bool) (l : List α) :
    (l.map fun t => if p t then 1 else 0).sum = l.countP p := by
  induction l with
  | nil => simp
  | cons a as ih =>
    by_cases h : p a <;> simp [List.countP_cons, h, ih, Nat.add_comm]

theorem countP_label_eq {cand : Frame} (hlab : (cand.map Prod.fst).Nodup)
    {p : Nat × LoadedRow} (hp : p ∈ cand) (pr : Nat × LoadedRow → Bool) :
    cand.countP (fun q => q.1 == p.1 && pr q) = if pr p then 1 else 0 := by
  induction cand with
  | nil => cases hp
  | cons x rest ih =>
    simp only [List.map_cons, List.nodup_cons] at hlab
    rcases List.mem_cons.mp hp with rfl | hp'
    · rw [List.countP_cons]
      have h0 : rest.countP (fun q => q.1 == p.1 && pr q) = 0 := by
        rw [List.countP_eq_zero]
        intro q hq
        simp only [Bool.and_eq_true, beq_iff_eq, not_and]
        intro h1 _
        exact hlab.1 (h1 ▸ List.mem_map_of_mem Prod.fst hq)
      rw [h0]
      by_cases h : pr p <;> simp [h]
    · have hne : x.1 ≠ p.1 := by
        intro hc
        exact hlab.1 (hc ▸ List.mem_map_of_mem Prod.fst hp')
      rw [List.countP_cons]
      have hx : (x.1 == p.1 && pr x) = false := by
        simp [hne]
      rw [hx]
      simp [ih hlab.2 hp']

theorem length_le_of_nodup_subset {α : Type} [DecidableEq α] {l l' : List α}
    (h : l.Nodup) (hs : l ⊆ l') : l.length ≤ l'.length := by
  calc l.length = l.toFinset.card := (List.toFinset_card_of_nodup h).symm
    _ ≤ l'.toFinset.card := Finset.card_le_card fun x hx => by
        simp only [List.mem_toFinset] at hx ⊢
        exact hs hx
    _ ≤ l'.length := l'.toFinset_card_le

theorem candidateSet_sublist (df : Frame) (dateRange : Option (Int × Int))
    (minMessages : Int) : (candidateSet df dateRange minMessages).Sublist df := by
  unfold candidateSet
  cases dateRange with
  | none => exact List.filter_sublist _
  | some d =>
    obtain ⟨s, e⟩ := d
    exact (List.filter_sublist _).trans (List.filter_sublist _)

theorem mem_candidateSet_of_mem {df : Frame} {dateRange : Option (Int × Int)}
    {minMessages : Int} {x : Nat × LoadedRow}
    (h : x ∈ candidateSet df dateRange minMessages) : x ∈ df :=
  (candidateSet_sublist df dateRange minMessages).mem h

theorem mem_search_term (cand : Frame) (t : String) (x : Nat × LoadedRow) :
    x ∈ search_term cand t ↔ x ∈ cand ∧ termMatchesCode t x.2 = true := by
  simp only [search_term, termMatchesCode, List.mem_filter]

theorem mem_termStage_flatten (cand : Frame) (terms : List String) (x : Nat × LoadedRow) :
    x ∈ (terms.map fun t => search_term cand t).flatten ↔
      x ∈ cand ∧ ∃ t ∈ terms, termMatchesCode t x.2 = true := by
  simp only [List.mem_flatten, List.mem_map]
  constructor
  · rintro ⟨l, ⟨t, ht, rfl⟩, hx⟩
    rcases (mem_search_term cand t x).mp hx with ⟨h1, h2⟩
    exact ⟨h1, t, ht, h2⟩
  · rintro ⟨hx, t, ht, hmask⟩
    exact ⟨search_term cand t, ⟨t, ht, rfl⟩, (mem_search_term cand t x).mpr ⟨hx, hmask⟩⟩

theorem countP_termStage_flatten {cand : Frame} (hlab : (cand.map Prod.fst).Nodup)
    (terms : List String) {y : Nat × LoadedRow} (hy : y ∈ cand) :
    ((terms.map fun t => search_term cand t).flatten).countP (fun q2 => q2.1 == y.1) =
      terms.countP fun t => termMatchesCode t y.2 := by
  rw [List.countP_flatten, List.map_map]
  have hone : ∀ t : String,
      (search_term cand t).countP (fun q2 => q2.1 == y.1) =
        if termMatchesCode t y.2 then 1 else 0 := by
    intro t
    simp only [search_term, termMatchesCode]
    rw [List.countP_filter]
    exact countP_label_eq hlab hy _
  calc ((terms.map fun t => (search_term cand t).countP fun q2 => q2.1 == y.1)).sum
      = ((terms.map fun t => if termMatchesCode t y.2 then 1 else 0)).sum := by
        congr 1
        exact List.map_congr_left fun t _ => hone t
    _ = terms.countP fun t => termMatchesCode t y.2 :=
        sum_map_ite_eq_countP _ terms

theorem termStage_subset (cand : Frame) (terms : List String) :
    ∀ x ∈ termStage cand terms, x ∈ cand := by
  intro x hx
  have h1 := mem_of_mem_dropDuplicates hx
  have h2 := (List.mem_filter.mp h1).1
  exact ((mem_termStage_flatten cand terms x).mp h2).1

theorem mem_termStage (cand : Frame) (terms : List String)
    (hlab : (cand.map Prod.fst).Nodup) (hval : (cand.map Prod.snd).Nodup)
    (hne : terms ≠ []) (x : Nat × LoadedRow) :
    x ∈ termStage cand terms ↔
      x ∈ cand ∧ ∀ t ∈ terms, termMatchesCode t x.2 = true := by
  unfold termStage
  have hmemflat := mem_termStage_flatten cand terms
  have hgrouped : ∀ y : Nat × LoadedRow,
      y ∈ ((terms.map fun t => search_term cand t).flatten).filter (fun p =>
          ((terms.map fun t => search_term cand t).flatten).countP
            (fun q2 => q2.1 == p.1) == terms.length) ↔
        y ∈ cand ∧ ∀ t ∈ terms, termMatchesCode t y.2 = true := by
    intro y
    rw [List.mem_filter]
    constructor
    · rintro ⟨h1, h2⟩
      have hy : y ∈ cand := ((hmemflat y).mp h1).1
      refine ⟨hy, ?_⟩
      rw [countP_termStage_flatten hlab terms hy] at h2
      exact List.countP_eq_length.mp (beq_iff_eq.mp h2)
    · rintro ⟨hy, hall⟩
      rcases List.exists_mem_of_ne_nil terms hne with ⟨t0, ht0⟩
      refine ⟨(hmemflat y).mpr ⟨hy, t0, ht0, hall t0 ht0⟩, ?_⟩
      rw [countP_termStage_flatten hlab terms hy]
      exact beq_iff_eq.mpr (List.countP_eq_length.mpr hall)
  have hinj : ∀ p ∈ ((terms.map fun t => search_term cand t).flatten).filter (fun p =>
        ((terms.map fun t => search_term cand t).flatten).countP
          (fun q2 => q2.1 == p.1) == terms.length),
      ∀ q ∈ ((terms.map fun t => search_term cand t).flatten).filter (fun p =>
        ((terms.map fun t => search_term cand t).flatten).countP
          (fun q2 => q2.1 == p.1) == terms.length), p.2 = q.2 → p = q := by
    intro p hp q hq hpq
    exact eq_of_nodup_map hval ((hgrouped p).mp hp).1 ((hgrouped q).mp hq).1 hpq
  rw [mem_dropDuplicates_of_inj hinj [] x]
  simp only [List.not_mem_nil, not_false_eq_true, and_true]
  exact hgrouped x

theorem nodup_termStage (cand : Frame) (terms : List String) :
    (termStage cand terms).Nodup :=
  List.Nodup.of_map Prod.snd (nodup_values_dropDuplicates _ [])

theorem mem_sort_conversations (df : Frame) (sortBy : String) (x : Nat × LoadedRow) :
    x ∈ sort_conversations df sortBy ↔ x ∈ df := by
  unfold sort_conversations
  cases sortOptionsLookup sortBy with
  | none => exact Iff.rfl
  | some ka =>
    obtain ⟨key, asc⟩ := ka
    exact mem_stableSort _ df x

theorem length_sort_conversations (df : Frame) (sortBy : String) :
    (sort_conversations df sortBy).length = df.length := by
  unfold sort_conversations
  cases sortOptionsLookup sortBy with
  | none => rfl
  | some ka =>
    obtain ⟨key, asc⟩ := ka
    exact length_stableSort _ df

theorem listMin_le_seed (a : Int) (l : List Int) : listMin a l ≤ a := by
  induction l generalizing a with
  | nil => simp [listMin]
  | cons b bs ih =>
    simp only [listMin]
    exact le_trans (ih (min a b)) (min_le_left a b)

theorem seed_le_listMax (a : Int) (l : List Int) : a ≤ listMax a l := by
  induction l generalizing a with
  | nil => simp [listMax]
  | cons b bs ih =>
    simp only [listMax]
    exact le_trans (le_max_left a b) (ih (max a b))

theorem fromDict_zero_timestamp (pm : String → Option String) (c : Option String)
    (sn : Option String) (sh : Option (Option String)) :
    Message.fromDict pm (.entry (some 0) c sn sh) = none := by
  simp [Message.fromDict]

theorem fromDict_system (pm : String → Option String) (ts : Option Int)
    (c : Option String) (sn : Option String) (sh : Option (Option String))
    (h1 : strTrim (c.getD "") ≠ "")
    (h2 : isSystemMessage (strTrim (c.getD "")) = true) :
    Message.fromDict pm (.entry ts c sn sh) = none := by
  cases ts with
  | none => rfl
  | some t =>
    have h1' : (strTrim (c.getD "") == "") = false := beq_eq_false_iff_ne.mpr h1
    simp only [Message.fromDict]
    by_cases ht : (t == 0) = true
    · rw [if_pos ht]
    · rw [if_neg ht]
      simp [h1', h2]

theorem process_json_file_fields (f : FileData) (r : ConversationRecord)
    (h : process_json_file f = some r) :
    r.firstContact ≤ r.lastContact ∧
      r.durationDays = (r.lastContact - r.firstContact).fdiv msPerDay + 1 ∧
      1 ≤ r.durationDays ∧
      (∃ messages participants title tp,
        f = FileData.obj messages participants title tp ∧
        r.messageCount =
          (messages.filterMap (Message.fromDict (participantsMapOf participants))).length ∧
        1 ≤ r.messageCount) := by
  cases f with
  | corrupt => simp [process_json_file] at h
  | notDict => simp [process_json_file] at h
  | obj messages participants title tp =>
    simp only [process_json_file] at h
    by_cases hME : messages.isEmpty
    · rw [if_pos hME] at h; cases h
    · rw [if_neg hME] at h
      rcases hval : messages.filterMap (Message.fromDict (participantsMapOf participants))
        with _ | ⟨m, ms⟩
      · rw [hval] at h; cases h
      · rw [hval] at h
        injection h with h
        subst h
        have hfl : listMin m.timestamp (ms.map Message.timestamp) ≤
            listMax m.timestamp (ms.map Message.timestamp) :=
          le_trans (listMin_le_seed _ _) (seed_le_listMax _ _)
        have hdd : (0 : Int) ≤
            (listMax m.timestamp (ms.map Message.timestamp) -
              listMin m.timestamp (ms.map Message.timestamp)).fdiv msPerDay :=
          Int.fdiv_nonneg (sub_nonneg.mpr hfl) (by decide)
        refine ⟨hfl, rfl, ?_, messages, participants, title, tp, rfl, ?_, ?_⟩
        · show (1 : Int) ≤ (listMax m.timestamp (ms.map Message.timestamp) -
            listMin m.timestamp (ms.map Message.timestamp)).fdiv msPerDay + 1
          omega
        · rw [hval]
        · simp

theorem process_json_file_skip (parts : List PartEntry) (title tp : Option String)
    (e : MsgEntry) (he : Message.fromDict (participantsMapOf parts) e = none)
    (ms1 ms2 : List MsgEntry) :
    process_json_file (.obj (ms1 ++ e :: ms2) parts title tp) =
      process_json_file (.obj (ms1 ++ ms2) parts title tp) := by
  have hv : (ms1 ++ e :: ms2).filterMap (Message.fromDict (participantsMapOf parts)) =
      (ms1 ++ ms2).filterMap (Message.fromDict (participantsMapOf parts)) := by
    rw [List.filterMap_append, List.filterMap_append, List.filterMap_cons, he]
  have hle : (ms1 ++ e :: ms2).isEmpty = false := by cases ms1 <;> rfl
  simp only [process_json_file]
  rw [if_neg (by rw [hle]; exact Bool.false_ne_true)]
  by_cases h0 : (ms1 ++ ms2).isEmpty
  · rw [if_pos h0]
    have h00 : ms1 ++ ms2 = [] := by
      cases hx : ms1 ++ ms2 with
      | nil => rfl
      | cons a as => rw [hx] at h0; cases h0
    rw [hv, h00]
    rfl
  · rw [if_neg h0, hv]

/-! ## Claim theorems -/

/-- **C1** (amended): for every corpus frame with distinct index labels
and distinct row values, and every query whose term list is non-empty,
`search` returns exactly the records of the date- and
message-count-filtered candidate set for which every term — after the
term normalization `_search_term` applies (lower-casing and stripping
`[^\w\s]`) — matches as a whole word in the normalized conversation
text, or as a case-insensitive substring of the profile name or the
profile id; the conjunction is over all terms, so a record missing any
one term's match is absent from the result. -/
theorem c1_search_boolean_and_semantics (df : Frame) (q : String)
    (dateRange : Option (Int × Int)) (minMessages : Int) (sortBy : String)
    (maxResults : Nat) (p : Nat × LoadedRow)
    (hlab : (df.map Prod.fst).Nodup) (hval : (df.map Prod.snd).Nodup)
    (hq : q ≠ "") (hterms : searchTermsOf q ≠ [])
    (hmax : df.length ≤ maxResults) :
    p ∈ searchFrame df (some q) dateRange minMessages sortBy maxResults ↔
      p ∈ candidateSet df dateRange minMessages ∧
        ∀ t ∈ searchTermsOf q, termMatchesCode t p.2 = true := by
  have hsub := candidateSet_sublist df dateRange minMessages
  have hlab2 : ((candidateSet df dateRange minMessages).map Prod.fst).Nodup :=
    List.Nodup.sublist (List.Sublist.map Prod.fst hsub) hlab
  have hval2 : ((candidateSet df dateRange minMessages).map Prod.snd).Nodup :=
    List.Nodup.sublist (List.Sublist.map Prod.snd hsub) hval
  have hq' : (q == "") = false := beq_eq_false_iff_ne.mpr hq
  have hterms' : (searchTermsOf q).isEmpty = false := by
    cases hx : searchTermsOf q with
    | nil => exact absurd hx hterms
    | cons a as => rfl
  have hlen : (termStage (candidateSet df dateRange minMessages) (searchTermsOf q)).length ≤
      maxResults := by
    refine le_trans (length_le_of_nodup_subset (nodup_termStage _ _) ?_)
      (le_trans hsub.length_le hmax)
    exact termStage_subset _ _
  simp only [searchFrame, hq', Bool.false_eq_true, if_false, hterms']
  rw [List.take_of_length_le (by rw [length_sort_conversations]; exact hlen)]
  rw [mem_sort_conversations]
  exact mem_termStage _ _ hlab2 hval2 hterms p

/-- **C1** counterexample to the claim as stated: the term `ab.c` does
not satisfy the claim's raw-term match condition against the only
record (no whole-word occurrence, no raw substring of profile name or
id), so the claim requires the result to be empty — yet `search`
returns the record, because `_search_term` first normalizes the term
to `abc`, which is a substring of the profile id `abcd1234`. -/
theorem c1_raw_term_counterexample :
    searchFrame [(0, rowCex)] (some "ab.c") none 1 "Recent" 100 = [(0, rowCex)] ∧
      termMatchesSpec "ab.c" rowCex = false := by
  constructor
  · decide
  · decide

/-- **C1** witness: the amended theorem applied to a concrete two-row
corpus and the query `land`. -/
theorem c1_search_boolean_and_semantics_witness :
    (0, rowLand) ∈
        searchFrame [(0, rowLand), (1, rowOther)] (some "land") none 1 "Recent" 100 ↔
      (0, rowLand) ∈ candidateSet [(0, rowLand), (1, rowOther)] none 1 ∧
        ∀ t ∈ searchTermsOf "land", termMatchesCode t (0, rowLand).2 = true :=
  c1_search_boolean_and_semantics [(0, rowLand), (1, rowOther)] "land" none 1 "Recent"
    100 (0, rowLand) (by decide) (by decide) (by decide) (by decide) (by decide)

/-- **C3**: every record the JSON parser produces has `durationDays`
equal to the floor of the last-to-first contact difference in whole
days plus one, and therefore at least 1. -/
theorem c3_duration_days (f : FileData) (r : ConversationRecord)
    (h : process_json_file f = some r) :
    r.durationDays = (r.lastContact - r.firstContact).fdiv msPerDay + 1 ∧
      1 ≤ r.durationDays :=
  ⟨(process_json_file_fields f r h).2.1, (process_json_file_fields f r h).2.2.1⟩

/-- **C3** witness: the theorem applied to a concrete parsed unit. -/
theorem c3_duration_days_witness :
    process_json_file fileB = some recB ∧
      recB.durationDays = (recB.lastContact - recB.firstContact).fdiv msPerDay + 1 ∧
      1 ≤ recB.durationDays :=
  ⟨by decide, c3_duration_days fileB recB (by decide)⟩

/-- **C4** (divergence demonstration): `entryShareContent` has a valid
nonzero timestamp, non-empty trimmed content and no blocklisted text —
it survives the validation the claim describes — yet `Message.from_dict`
returns `None` for it: the dataclass construction evaluates
`share.get('link') if 'share' in data else None` and the local `share`
is only assigned on the empty-content path, so the lookup raises
`UnboundLocalError` and the handler discards the message.  The record
built from `fileShare` therefore counts only 1 of its 2 spec-valid
messages. -/
theorem c4_share_key_message_dropped :
    msgsShare.countP survivesSpecValidation = 2 ∧
      Message.fromDict (participantsMapOf []) entryShareContent = none ∧
      (process_json_file fileShare).map ConversationRecord.messageCount = some 1 := by
  refine ⟨by decide, by decide, by decide⟩

/-- **C5**: a message entry whose trimmed content is one of the
blocklisted system notices (the literal `missed voice call` among
them) never yields a `Message`, and inserting such an entry anywhere
into a unit's message list leaves the produced record — its
`conversationText` and `messageCount` included — exactly unchanged. -/
theorem c5_blocklisted_message_excluded (c : String) (hc : strTrim c ∈ skipTexts)
    (ts : Option Int) (sn : Option String) (sh : Option (Option String))
    (parts : List PartEntry) (title tp : Option String) (ms1 ms2 : List MsgEntry) :
    Message.fromDict (participantsMapOf parts) (.entry ts (some c) sn sh) = none ∧
      process_json_file (.obj (ms1 ++ .entry ts (some c) sn sh :: ms2) parts title tp) =
        process_json_file (.obj (ms1 ++ ms2) parts title tp) := by
  simp only [skipTexts, List.mem_cons, List.not_mem_nil, or_false] at hc
  have h1 : strTrim ((some c).getD "") ≠ "" := by
    rw [Option.getD_some]
    rcases hc with h | h | h | h | h | h <;> rw [h] <;> decide
  have h2 : isSystemMessage (strTrim ((some c).getD "")) = true := by
    rw [Option.getD_some]
    rcases hc with h | h | h | h | h | h <;> rw [h] <;> decide
  have he := fromDict_system (participantsMapOf parts) ts (some c) sn sh h1 h2
  exact ⟨he, process_json_file_skip parts title tp _ he ms1 ms2⟩

/-- **C5** witness: the theorem applied to a concrete blocklisted entry
inserted in front of a valid message list. -/
theorem c5_blocklisted_message_excluded_witness :
    Message.fromDict (participantsMapOf [])
        (.entry (some 123) (some "  missed voice call ") (some "Sys") none) = none ∧
      process_json_file (.obj
          ([] ++ .entry (some 123) (some "  missed voice call ") (some "Sys") none ::
            [.entry (some 1000) (some "hello") (some "Alice") none]) [] (some "T1") none) =
        process_json_file (.obj ([] ++ [.entry (some 1000) (some "hello") (some "Alice") none])
          [] (some "T1") none) :=
  c5_blocklisted_message_excluded "  missed voice call " (by decide) (some 123)
    (some "Sys") none [] (some "T1") none []
    [.entry (some 1000) (some "hello") (some "Alice") none]

/-- **C9**: a message entry whose `timestamp_ms` field is present but
equal to `0` yields no `Message` — the same outcome as an absent
timestamp — and inserting such an entry anywhere into a unit's message
list leaves the produced record (conversation text, counts and contact
times included) exactly unchanged. -/
theorem c9_zero_timestamp_rejected (pm : String → Option String)
    (c : Option String) (sn : Option String) (sh : Option (Option String)) :
    Message.fromDict pm (.entry (some 0) c sn sh) = none ∧
      Message.fromDict pm (.entry (some 0) c sn sh) =
        Message.fromDict pm (.entry none c sn sh) ∧
      ∀ (parts : List PartEntry) (title tp : Option String) (ms1 ms2 : List MsgEntry),
        process_json_file (.obj (ms1 ++ .entry (some 0) c sn sh :: ms2) parts title tp) =
          process_json_file (.obj (ms1 ++ ms2) parts title tp) := by
  refine ⟨fromDict_zero_timestamp pm c sn sh, ?_, ?_⟩
  · rw [fromDict_zero_timestamp]
    rfl
  · intro parts title tp ms1 ms2
    exact process_json_file_skip parts title tp _
      (fromDict_zero_timestamp (participantsMapOf parts) c sn sh) ms1 ms2

theorem perm_sort_conversations (df : Frame) (sortBy : String) :
    (sort_conversations df sortBy).Perm df := by
  unfold sort_conversations
  cases sortOptionsLookup sortBy with
  | none => exact List.Perm.refl df
  | some ka =>
    obtain ⟨key, asc⟩ := ka
    exact perm_stableSort _ df

theorem sortedByCriterion_sort_conversations (df : Frame) (sortBy : String) :
    sortedByCriterion (sort_conversations df sortBy) sortBy := by
  unfold sortedByCriterion sort_conversations
  cases sortOptionsLookup sortBy with
  | none => trivial
  | some ka =>
    obtain ⟨key, asc⟩ := ka
    have htot : ∀ a b : Nat × LoadedRow,
        (if asc then decide (key a.2 ≤ key b.2) else decide (key b.2 ≤ key a.2)) = true ∨
          (if asc then decide (key b.2 ≤ key a.2) else decide (key a.2 ≤ key b.2)) = true := by
      intro a b
      cases asc <;> simp only [if_true, if_false, Bool.if_true_left, decide_eq_true_eq,
        Bool.false_eq_true, reduceIte] <;> exact Int.le_total _ _
    have htrans : ∀ a b c : Nat × LoadedRow,
        (if asc then decide (key a.2 ≤ key b.2) else decide (key b.2 ≤ key a.2)) = true →
        (if asc then decide (key b.2 ≤ key c.2) else decide (key c.2 ≤ key b.2)) = true →
        (if asc then decide (key a.2 ≤ key c.2) else decide (key c.2 ≤ key a.2)) = true := by
      intro a b c h1 h2
      cases asc <;>
        simp only [Bool.false_eq_true, reduceIte, decide_eq_true_eq] at h1 h2 ⊢
      · exact le_trans h2 h1
      · exact le_trans h1 h2
    refine List.Pairwise.imp ?_ (pairwise_stableSort _ htot htrans df)
    intro a b h
    cases asc <;> simp only [Bool.false_eq_true, reduceIte, decide_eq_true_eq] at h ⊢ <;>
      exact h

/-- **C6**: with no query, no date range and the default
`min_messages = 1`, `search` returns the whole corpus — every record
passes the count filter because `messageCount ≥ 1` — sorted by the
selected criterion and truncated to `max_results`. -/
theorem c6_empty_query_full_corpus (corpus : Frame) (sortBy : String) (maxResults : Nat)
    (hmc : ∀ p ∈ corpus, 1 ≤ p.2.record.messageCount) :
    searchFrame corpus none none 1 sortBy maxResults =
        (sort_conversations corpus sortBy).take maxResults ∧
      (sort_conversations corpus sortBy).Perm corpus ∧
      sortedByCriterion (sort_conversations corpus sortBy) sortBy := by
  have hfil : candidateSet corpus none 1 = corpus := by
    unfold candidateSet
    rw [List.filter_eq_self]
    intro p hp
    exact decide_eq_true (by exact_mod_cast hmc p hp)
  refine ⟨?_, perm_sort_conversations corpus sortBy,
    sortedByCriterion_sort_conversations corpus sortBy⟩
  simp only [searchFrame]
  rw [hfil]

/-- **C6** witness: the theorem applied to a concrete two-row corpus
sorted by message count. -/
theorem c6_empty_query_full_corpus_witness :
    searchFrame [(0, rowCex), (1, rowLand)] none none 1 "Most Messages" 10 =
        (sort_conversations [(0, rowCex), (1, rowLand)] "Most Messages").take 10 ∧
      (sort_conversations [(0, rowCex), (1, rowLand)] "Most Messages").Perm
        [(0, rowCex), (1, rowLand)] ∧
      sortedByCriterion (sort_conversations [(0, rowCex), (1, rowLand)] "Most Messages")
        "Most Messages" :=
  c6_empty_query_full_corpus [(0, rowCex), (1, rowLand)] "Most Messages" 10 (by decide)

/-- **C7**: a failing unit never aborts the batch: deleting a corrupt
unit from the processing sequence leaves the collected records exactly
unchanged (so every remaining unit is still processed), and the
concrete walk of three `message_1.json` units — one corrupt, two valid
— yields exactly 2 records. -/
theorem c7_parse_failure_isolated :
    (∀ pre post : List FileData,
        processFiles (pre ++ FileData.corrupt :: post) = processFiles (pre ++ post)) ∧
      (process_folder walkThree contentsThree).length = 2 := by
  constructor
  · intro pre post
    have hc : process_json_file FileData.corrupt = none := rfl
    simp [processFiles, List.filterMap_append, List.filterMap_cons, hc]
  · decide

theorem searchFrame_subset (df : Frame) (query : Option String)
    (dateRange : Option (Int × Int)) (minMessages : Int) (sortBy : String)
    (maxResults : Nat) :
    ∀ x ∈ searchFrame df query dateRange minMessages sortBy maxResults, x ∈ df := by
  intro x hx
  cases query with
  | none =>
    simp only [searchFrame] at hx
    have hx3 := List.mem_of_mem_take hx
    rw [mem_sort_conversations] at hx3
    exact mem_candidateSet_of_mem hx3
  | some q =>
    simp only [searchFrame] at hx
    have hx3 := List.mem_of_mem_take hx
    rw [mem_sort_conversations] at hx3
    by_cases hq : (q == "") = true
    · rw [if_pos hq] at hx3
      exact mem_candidateSet_of_mem hx3
    · rw [if_neg hq] at hx3
      by_cases ht : (searchTermsOf q).isEmpty = true
      · rw [if_pos ht] at hx3
        exact mem_candidateSet_of_mem hx3
      · rw [if_neg ht] at hx3
        exact mem_candidateSet_of_mem (termStage_subset _ _ x hx3)

/-- **C8**: executing `search` leaves the engine's stored frame exactly
as it was (`searchRun` returns the state unchanged: no source
operation writes to `self.df`), and every row of the result is one of
the engine's own rows, value-identical — filtering, term matching,
sorting and truncation never rewrite a field. -/
theorem c8_search_leaves_corpus_unchanged (engine : ConversationSearch)
    (query : Option String) (dateRange : Option (Int × Int)) (minMessages : Int)
    (sortBy : String) (maxResults : Nat) :
    (engine.searchRun query dateRange minMessages sortBy maxResults).1 = engine ∧
      ∀ x ∈ (engine.searchRun query dateRange minMessages sortBy maxResults).2,
        x ∈ engine.df :=
  ⟨rfl, searchFrame_subset engine.df query dateRange minMessages sortBy maxResults⟩

/-- **C8** witness: the theorem applied to a concrete engine; the
result row it returns is the engine's own row. -/
theorem c8_search_leaves_corpus_unchanged_witness :
    (ConversationSearch.searchRun ⟨[(0, rowLand)]⟩ (some "land") none 1 "Recent" 10).1 =
        (⟨[(0, rowLand)]⟩ : ConversationSearch) ∧
      (0, rowLand) ∈ (⟨[(0, rowLand)]⟩ : ConversationSearch).df :=
  ⟨(c8_search_leaves_corpus_unchanged ⟨[(0, rowLand)]⟩ (some "land") none 1 "Recent" 10).1,
    (c8_search_leaves_corpus_unchanged ⟨[(0, rowLand)]⟩ (some "land") none 1 "Recent" 10).2
      (0, rowLand) (by decide)⟩

theorem mem_find_json_files (walk : List WalkEntry) (p : List String) :
    p ∈ find_json_files walk ↔
      ∃ e ∈ walk, "message_1.json" ∈ e.2 ∧ p = e.1 ++ ["message_1.json"] := by
  unfold find_json_files
  simp only [List.mem_flatten, List.mem_map]
  constructor
  · rintro ⟨l, ⟨e, he, rfl⟩, hp⟩
    rcases List.mem_map.mp hp with ⟨f, hf, rfl⟩
    rcases List.mem_filter.mp hf with ⟨hf2, hf3⟩
    have hf4 : f = "message_1.json" := by simpa using hf3
    subst hf4
    exact ⟨e, he, hf2, rfl⟩
  · rintro ⟨e, he, hm, rfl⟩
    refine ⟨_, ⟨e, he, rfl⟩, ?_⟩
    exact List.mem_map.mpr ⟨"message_1.json", List.mem_filter.mpr ⟨hm, by decide⟩, rfl⟩

theorem getLast_find_json_files {walk : List WalkEntry} {p : List String}
    (hp : p ∈ find_json_files walk) : p.getLast? = some "message_1.json" := by
  rcases (mem_find_json_files walk p).mp hp with ⟨e, _, _, rfl⟩
  simp

/-- **C10**: discovery collects exactly the files literally named
`message_1.json` — a path is discovered iff some walked directory
lists that name and the path is that directory's path joined with it —
and ingestion depends only on the contents of such files: two content
assignments agreeing on every path ending in `message_1.json` ingest
identically, so a `message_2.json` anywhere in the tree is never
parsed and never contributes a record. -/
theorem c10_only_message_1_discovered (walk : List WalkEntry) (p : List String) :
    (p ∈ find_json_files walk ↔
        ∃ e ∈ walk, "message_1.json" ∈ e.2 ∧ p = e.1 ++ ["message_1.json"]) ∧
      ∀ c1 c2 : List String → FileData,
        (∀ q, q.getLast? = some "message_1.json" → c1 q = c2 q) →
        process_folder walk c1 = process_folder walk c2 := by
  refine ⟨mem_find_json_files walk p, ?_⟩
  intro c1 c2 hc
  have hmap : (find_json_files walk).map c1 = (find_json_files walk).map c2 :=
    List.map_congr_left fun q hq => hc q (getLast_find_json_files hq)
  simp only [process_folder]
  rw [hmap]

/-- **C10** witness: the theorem applied to a walk listing both a
`message_1.json` and a `message_2.json`; making the latter corrupt
instead of valid changes nothing. -/
theorem c10_only_message_1_discovered_witness :
    process_folder walkMixed contentsMixedA = process_folder walkMixed contentsMixedB :=
  (c10_only_message_1_discovered walkMixed []).2 contentsMixedA contentsMixedB (by
    intro q hq
    unfold contentsMixedA contentsMixedB
    by_cases h : q = ["inbox", "d", "message_2.json"]
    · subst h
      exact absurd hq (by decide)
    · rw [if_neg h])
